import Mathlib

/-!
# A Lean model of the `template_dict` library

This file is a shallow embedding of the two source modules of the
`template-dict` repository:

* `template_dict/utils.py` — the nested-field resolver `get_field`;
* `template_dict/templates.py` — the `Definitions` configuration object, the
  operator tree (`OperatorSelect`, `OperatorExec`, `OperatorFormat`), the
  recursive expression parser `Template._parse_string` /
  `Template._parse_value`, and the evaluator `Template.eval` /
  `Template._fill_value`.

Python values flowing through the library are modelled by the inductive type
`Value`: strings, integers, booleans, `None`, exception *classes* used as the
"raise on missing" sentinel default (`vexc`, standing for e.g. `KeyError`),
dictionaries (as ordered association lists, matching Python's insertion-ordered
`dict`), lists and tuples.  Fallible Python code (raising exceptions) is
modelled with `Except`.
-/

/-- A Python value as handled by the library: scalar leaves, an exception
class used as the raising default sentinel (`type(default) is type and
issubclass(default, Exception)` in the source), dicts, lists and tuples. -/
inductive Value where
  | vstr : String → Value
  | vint : Int → Value
  | vbool : Bool → Value
  | vnull : Value
  | vexc : Value
  | vmap : List (String × Value) → Value
  | vlist : List Value → Value
  | vtup : List Value → Value

namespace Value

/-- `isinstance(obj, dict)` in the source. -/
def is_dict : Value → Bool
  | .vmap _ => true
  | _ => false

/-- `isinstance(obj, (list, tuple))` in the source. -/
def is_seq : Value → Bool
  | .vlist _ => true
  | .vtup _ => true
  | _ => false

/-- `type(default) is type and issubclass(default, Exception)` in the source:
the default denotes "raise on missing". -/
def is_exc : Value → Bool
  | .vexc => true
  | _ => false

/-- A value that is neither a dict nor a list/tuple: the "scalar" case of
`get_field`'s traversal (this includes strings, which the resolver never
iterates). -/
def is_scalar (v : Value) : Bool := !v.is_dict && !v.is_seq

theorem sizeOf_snd_lt_of_mem {p : String × Value} {l : List (String × Value)}
    (h : p ∈ l) : sizeOf p.2 < sizeOf l := by
  have h1 := List.sizeOf_lt_of_mem h
  rcases p with ⟨a, b⟩
  simp at h1 ⊢
  omega

/-- Structural induction principle for `Value` handling the nested lists. -/
theorem rec_on_nested {P : Value → Prop}
    (hstr : ∀ s, P (.vstr s)) (hint : ∀ n, P (.vint n))
    (hbool : ∀ b, P (.vbool b)) (hnull : P .vnull) (hexc : P .vexc)
    (hmap : ∀ l, (∀ p ∈ l, P (Prod.snd p)) → P (.vmap l))
    (hlist : ∀ l, (∀ v ∈ l, P v) → P (.vlist l))
    (htup : ∀ l, (∀ v ∈ l, P v) → P (.vtup l)) :
    ∀ v, P v := fun v =>
  match v with
  | .vstr s => hstr s
  | .vint n => hint n
  | .vbool b => hbool b
  | .vnull => hnull
  | .vexc => hexc
  | .vmap l => hmap l (fun p hp =>
      have : sizeOf p.2 < 1 + sizeOf l := by
        have := sizeOf_snd_lt_of_mem hp
        omega
      rec_on_nested hstr hint hbool hnull hexc hmap hlist htup p.2)
  | .vlist l => hlist l (fun v hv =>
      have : sizeOf v < 1 + sizeOf l := by
        have := List.sizeOf_lt_of_mem hv
        omega
      rec_on_nested hstr hint hbool hnull hexc hmap hlist htup v)
  | .vtup l => htup l (fun v hv =>
      have : sizeOf v < 1 + sizeOf l := by
        have := List.sizeOf_lt_of_mem hv
        omega
      rec_on_nested hstr hint hbool hnull hexc hmap hlist htup v)
termination_by v => sizeOf v

end Value

/-- If an association-list lookup (Python's `__obj[_key]` after the
`_key in __obj` test) succeeds, the result is structurally smaller than the
dict it came from. -/
theorem lookup_sizeOf_lt {m : List (String × Value)} {k : String} {v : Value}
    (h : m.lookup k = some v) : sizeOf v < sizeOf m := by
  induction m with
  | nil => simp [List.lookup] at h
  | cons p ps ih =>
    rcases p with ⟨k1, v1⟩
    rw [List.lookup] at h
    cases hbk : (k == k1) with
    | true =>
      rw [hbk] at h
      simp at h
      subst h
      simp
      omega
    | false =>
      rw [hbk] at h
      simp at h
      have := ih h
      simp
      omega

mutual

/-- `get_field` from `template_dict/utils.py`, after the key has been split:
the loop over `enumerate(__key)`.  `full` is the full key list of the current
call (`__key` in the source), used as the payload of the raised `KeyError`
(`raise default(__key)`).  The current object is `obj`, `key` is the list of
segments still to consume, and `default` is the configured default, where
`Value.vexc` stands for an exception class (the raising sentinel). -/
def get_field_aux (full : List String) (obj : Value) (key : List String)
    (default : Value) : Except (List String) Value :=
  match key with
  | [] => .ok obj
  | k :: rest =>
    if k = "" then
      -- `if _key:` — an empty segment is skipped
      get_field_aux full obj rest default
    else
      match obj with
      | .vmap m =>
        match h : m.lookup k with
        | some v => get_field_aux full v rest default
        | none =>
          -- `if type(default) is type and issubclass(default, Exception)`
          if default.is_exc then .error full else .ok default
      | .vlist l =>
        -- broadcast: `type(__obj)(get_field(sub, __key[n:], ...) ...)`
        (get_field_list l (k :: rest) default).map .vlist
      | .vtup l =>
        (get_field_list l (k :: rest) default).map .vtup
      | _ =>
        -- neither dict nor list/tuple: `return default`
        .ok default
termination_by (sizeOf obj, key.length)
decreasing_by
  all_goals
    first
      | (apply Prod.Lex.right
         simp only [List.length_cons]
         omega)
      | (apply Prod.Lex.left
         have hlt := lookup_sizeOf_lt h
         simp only [Value.vmap.sizeOf_spec]
         omega)
      | (apply Prod.Lex.left
         simp only [Value.vlist.sizeOf_spec, Value.vtup.sizeOf_spec]
         omega)

/-- Broadcast helper: resolve the remaining key against every element of a
sequence; the recursive `get_field(sub_obj, __key[n:], ...)` calls, with the
error short-circuiting of a raised exception. -/
def get_field_list (l : List Value) (key : List String) (default : Value) :
    Except (List String) (List Value) :=
  match l with
  | [] => .ok []
  | v :: vs =>
    match get_field_aux key v key default with
    | .error e => .error e
    | .ok r =>
      match get_field_list vs key default with
      | .error e => .error e
      | .ok rs => .ok (r :: rs)
termination_by (sizeOf l, key.length)
decreasing_by
  all_goals
    apply Prod.Lex.left
    simp only [List.cons.sizeOf_spec]
    omega

end

/-- `get_field(obj, key, default=default)` with an already-split key list. -/
def get_field (obj : Value) (key : List String) (default : Value) :
    Except (List String) Value :=
  get_field_aux key obj key default

/-- Python's `str.split` with a one-character separator (the library's
delimiters are single characters): `''.split(d) == ['']`, empty segments are
kept. -/
def py_split_aux (delim : Char) : List Char → List Char → List String
  | [], cur => [String.mk cur.reverse]
  | c :: cs, cur =>
    if c = delim then String.mk cur.reverse :: py_split_aux delim cs []
    else py_split_aux delim cs (c :: cur)

/-- `key.split(delimiter)` on a string key. -/
def py_split (delim : Char) (s : String) : List String :=
  py_split_aux delim s.data []

/-- `get_field(obj, key, default=default, delimiter=delim)` with a string key:
`__key = __key.split(delimiter)`. -/
def get_field_str (obj : Value) (key : String) (default : Value)
    (delim : Char) : Except (List String) Value :=
  get_field obj (py_split delim key) default

example : py_split '.' "a.b" = ["a", "b"] := by decide

example : py_split '.' "" = [""] := by decide

example :
    get_field (.vmap [("a", .vmap [("b", .vlist [.vint 1]), ("c", .vint 2)])])
      ["a", "b"] .vexc = .ok (.vlist [.vint 1]) := by
  simp [get_field, get_field_aux, get_field_list, List.lookup, Value.is_exc]

example :
    get_field_str
      (.vmap [("a", .vlist [.vmap [("b", .vint 1)], .vmap [("b", .vint 2)],
        .vmap []])])
      "a-b" .vnull '-' =
      .ok (.vlist [.vint 1, .vint 2, .vnull]) := by
  simp [get_field_str, get_field, py_split, py_split_aux, get_field_aux,
    get_field_list, List.lookup, Value.is_exc, Except.map]

example :
    get_field_str
      (.vlist [.vmap [("b", .vmap [("c", .vlist [.vmap [("d", .vint 1)],
        .vmap [("d", .vint 2)], .vmap []])])], .vmap [("b", .vint 3)]])
      "b.c.d" .vnull '.' =
      .ok (.vlist [.vlist [.vint 1, .vint 2, .vnull], .vnull]) := by
  simp [get_field_str, get_field, py_split, py_split_aux, get_field_aux,
    get_field_list, List.lookup, Value.is_exc, Except.map]

example : get_field (.vmap []) ["a", "b", "c"] .vexc =
    .error ["a", "b", "c"] := by
  simp [get_field, get_field_aux, List.lookup, Value.is_exc]

/-- Unfolding: an exhausted key returns the current object. -/
theorem get_field_aux_nil (full : List String) (obj default : Value) :
    get_field_aux full obj [] default = .ok obj := by
  cases obj <;> simp [get_field_aux]

/-- Unfolding: an empty segment is skipped. -/
theorem get_field_aux_skip (full : List String) (obj default : Value)
    (rest : List String) :
    get_field_aux full obj ("" :: rest) default =
      get_field_aux full obj rest default := by
  cases obj <;> simp [get_field_aux]

/-- Unfolding: a non-empty segment against a scalar returns the default. -/
theorem get_field_aux_scalar_cons (full : List String) (obj default : Value)
    (k : String) (rest : List String) (hsc : obj.is_scalar = true)
    (hk : k ≠ "") :
    get_field_aux full obj (k :: rest) default = .ok default := by
  cases obj <;>
    simp_all [get_field_aux, Value.is_scalar, Value.is_dict, Value.is_seq]

/-- A path consisting only of empty segments is fully skipped: the traversal
returns the current object unchanged. -/
theorem get_field_aux_all_empty (key : List String) :
    ∀ (full : List String) (obj default : Value), (∀ s ∈ key, s = "") →
      get_field_aux full obj key default = .ok obj := by
  induction key with
  | nil =>
    intro full obj default _
    exact get_field_aux_nil full obj default
  | cons k rest ih =>
    intro full obj default h
    have hk : k = "" := h k (by simp)
    subst hk
    rw [get_field_aux_skip]
    exact ih full obj default (fun s hs => h s (by simp [hs]))

/-- If the traversal sits on a value that is neither a dict nor a sequence and
some non-empty segment remains, the configured default is returned as a plain
value — even when it denotes "raise". -/
theorem get_field_aux_scalar (key : List String) :
    ∀ (full : List String) (obj default : Value), obj.is_scalar = true →
      (∃ s ∈ key, s ≠ "") →
      get_field_aux full obj key default = .ok default := by
  induction key with
  | nil =>
    intro full obj default _ h
    simp at h
  | cons k rest ih =>
    intro full obj default hsc h
    by_cases hk : k = ""
    · subst hk
      rw [get_field_aux_skip]
      apply ih full obj default hsc
      rcases h with ⟨s, hs, hne⟩
      rcases List.mem_cons.mp hs with rfl | hmem
      · exact absurd rfl hne
      · exact ⟨s, hmem, hne⟩
    · exact get_field_aux_scalar_cons full obj default k rest hsc hk

/-- Unfolding: a non-empty segment found in a dict descends. -/
theorem get_field_aux_vmap_found {m : List (String × Value)} {k : String}
    {v : Value} (full : List String) (default : Value) (rest : List String)
    (hk : k ≠ "") (hl : m.lookup k = some v) :
    get_field_aux full (.vmap m) (k :: rest) default =
      get_field_aux full v rest default := by
  rw [get_field_aux]
  simp only [if_neg hk]
  split
  · rename_i v1 heq
    rw [hl] at heq
    injection heq with h2
    rw [h2]
  · rename_i heq
    rw [hl] at heq
    cases heq

/-- Unfolding: a non-empty segment missing from a dict raises or defaults. -/
theorem get_field_aux_vmap_missing {m : List (String × Value)} {k : String}
    (full : List String) (default : Value) (rest : List String)
    (hk : k ≠ "") (hl : m.lookup k = none) :
    get_field_aux full (.vmap m) (k :: rest) default =
      (if default.is_exc then .error full else .ok default) := by
  rw [get_field_aux]
  simp only [if_neg hk]
  split
  · rename_i v1 heq
    rw [hl] at heq
    cases heq
  · rfl

/-- Unfolding: a non-empty segment against a list broadcasts. -/
theorem get_field_aux_vlist (full : List String) (default : Value)
    (k : String) (rest : List String) (l : List Value) (hk : k ≠ "") :
    get_field_aux full (.vlist l) (k :: rest) default =
      (get_field_list l (k :: rest) default).map .vlist := by
  simp [get_field_aux, hk]

/-- Unfolding: a non-empty segment against a tuple broadcasts. -/
theorem get_field_aux_vtup (full : List String) (default : Value)
    (k : String) (rest : List String) (l : List Value) (hk : k ≠ "") :
    get_field_aux full (.vtup l) (k :: rest) default =
      (get_field_list l (k :: rest) default).map .vtup := by
  simp [get_field_aux, hk]

/-- The broadcast helper is exactly an independent per-element traversal of
the sequence: `List.mapM` of the resolver over the elements. -/
theorem get_field_list_eq_mapM (l : List Value) (key : List String)
    (default : Value) :
    get_field_list l key default =
      l.mapM (fun e => get_field e key default) := by
  induction l with
  | nil =>
    rw [get_field_list, List.mapM_nil]
    rfl
  | cons v vs ih =>
    rw [get_field_list, List.mapM_cons, ← ih]
    cases h1 : get_field_aux key v key default with
    | error e => simp [get_field, h1, Except.bind, Bind.bind]
    | ok r =>
      cases h2 : get_field_list vs key default with
      | error e =>
        simp [get_field, h1, h2, Except.bind, Bind.bind]
      | ok rs =>
        simp [get_field, h1, h2, Except.bind, Bind.bind, pure, Except.pure]

/-- Forget the payload of a raised `KeyError`, keeping only whether the
resolution raised. -/
def forget_path : Except (List String) Value → Except Unit Value
  | .error _ => .error ()
  | .ok v => .ok v

/-- `forget_path` for broadcast (list-of-results) outcomes. -/
def forget_path_list :
    Except (List String) (List Value) → Except Unit (List Value)
  | .error _ => .error ()
  | .ok v => .ok v

theorem filter_cons_of_ne {k : String} (rest : List String) (hk : k ≠ "") :
    (k :: rest).filter (fun s => s ≠ "") =
      k :: rest.filter (fun s => s ≠ "") := by
  simp [List.filter, hk]

mutual

/-- Dropping the empty segments of a path never changes the resolved value
nor whether the resolution raises; only the path recorded in a raised error
can differ. -/
theorem get_field_filter_empty_aux (full : List String) (obj : Value)
    (key : List String) (default : Value) :
    ∀ full2 : List String,
      forget_path (get_field_aux full obj key default) =
        forget_path (get_field_aux full2 obj
          (key.filter (fun s => s ≠ "")) default) := by
  intro full2
  match key with
  | [] => simp [get_field_aux_nil]
  | k :: rest =>
    by_cases hk : k = ""
    · subst hk
      rw [get_field_aux_skip]
      have ih := get_field_filter_empty_aux full obj rest default full2
      simpa using ih
    · have hfilter := filter_cons_of_ne rest hk
      cases obj with
      | vmap m =>
        cases hl : m.lookup k with
        | some v =>
          rw [get_field_aux_vmap_found full default rest hk hl, hfilter,
            get_field_aux_vmap_found full2 default _ hk hl]
          exact get_field_filter_empty_aux full v rest default full2
        | none =>
          rw [get_field_aux_vmap_missing full default rest hk hl, hfilter,
            get_field_aux_vmap_missing full2 default _ hk hl]
          by_cases hexc : default.is_exc = true
          · simp [hexc, forget_path]
          · simp [hexc, forget_path]
      | vlist l =>
        rw [get_field_aux_vlist full default k rest l hk, hfilter,
          get_field_aux_vlist full2 default k _ l hk]
        have ih := get_field_filter_empty_list l (k :: rest) default
        rw [hfilter] at ih
        cases h1 : get_field_list l (k :: rest) default with
        | error e =>
          rw [h1] at ih
          cases h2 : get_field_list l (k :: rest.filter (fun s => s ≠ ""))
              default with
          | error e2 => simp [forget_path, forget_path_list, Except.map]
          | ok rs =>
            rw [h2] at ih
            simp [forget_path_list] at ih
        | ok rs =>
          rw [h1] at ih
          cases h2 : get_field_list l (k :: rest.filter (fun s => s ≠ ""))
              default with
          | error e2 =>
            rw [h2] at ih
            simp [forget_path_list] at ih
          | ok rs2 =>
            rw [h2] at ih
            simp [forget_path_list] at ih
            subst ih
            simp [forget_path, Except.map]
      | vtup l =>
        rw [get_field_aux_vtup full default k rest l hk, hfilter,
          get_field_aux_vtup full2 default k _ l hk]
        have ih := get_field_filter_empty_list l (k :: rest) default
        rw [hfilter] at ih
        cases h1 : get_field_list l (k :: rest) default with
        | error e =>
          rw [h1] at ih
          cases h2 : get_field_list l (k :: rest.filter (fun s => s ≠ ""))
              default with
          | error e2 => simp [forget_path, forget_path_list, Except.map]
          | ok rs =>
            rw [h2] at ih
            simp [forget_path_list] at ih
        | ok rs =>
          rw [h1] at ih
          cases h2 : get_field_list l (k :: rest.filter (fun s => s ≠ ""))
              default with
          | error e2 =>
            rw [h2] at ih
            simp [forget_path_list] at ih
          | ok rs2 =>
            rw [h2] at ih
            simp [forget_path_list] at ih
            subst ih
            simp [forget_path, Except.map]
      | vstr s =>
        rw [get_field_aux_scalar_cons full (.vstr s) default k rest rfl hk,
          hfilter,
          get_field_aux_scalar_cons full2 (.vstr s) default k _ rfl hk]
      | vint n =>
        rw [get_field_aux_scalar_cons full (.vint n) default k rest rfl hk,
          hfilter,
          get_field_aux_scalar_cons full2 (.vint n) default k _ rfl hk]
      | vbool b =>
        rw [get_field_aux_scalar_cons full (.vbool b) default k rest rfl hk,
          hfilter,
          get_field_aux_scalar_cons full2 (.vbool b) default k _ rfl hk]
      | vnull =>
        rw [get_field_aux_scalar_cons full (.vnull) default k rest rfl hk,
          hfilter,
          get_field_aux_scalar_cons full2 (.vnull) default k _ rfl hk]
      | vexc =>
        rw [get_field_aux_scalar_cons full (.vexc) default k rest rfl hk,
          hfilter,
          get_field_aux_scalar_cons full2 (.vexc) default k _ rfl hk]
termination_by (sizeOf obj, key.length)
decreasing_by
  all_goals
    first
      | (apply Prod.Lex.right
         simp only [List.length_cons]
         omega)
      | (apply Prod.Lex.left
         have hlt := lookup_sizeOf_lt hl
         simp only [Value.vmap.sizeOf_spec]
         omega)
      | (apply Prod.Lex.left
         simp only [Value.vlist.sizeOf_spec, Value.vtup.sizeOf_spec]
         omega)

/-- Companion statement for the broadcast helper. -/
theorem get_field_filter_empty_list (l : List Value) (key : List String)
    (default : Value) :
    forget_path_list (get_field_list l key default) =
      forget_path_list
        (get_field_list l (key.filter (fun s => s ≠ "")) default) := by
  match l with
  | [] => rw [get_field_list, get_field_list]
  | v :: vs =>
    have ihv := get_field_filter_empty_aux key v key default
      (key.filter (fun s => s ≠ ""))
    have ihvs := get_field_filter_empty_list vs key default
    rw [get_field_list, get_field_list]
    cases h1 : get_field_aux key v key default with
    | error e =>
      rw [h1] at ihv
      cases h3 : get_field_aux (key.filter (fun s => s ≠ "")) v
          (key.filter (fun s => s ≠ "")) default with
      | error e2 => simp [forget_path_list]
      | ok r2 =>
        rw [h3] at ihv
        simp [forget_path] at ihv
    | ok r =>
      rw [h1] at ihv
      cases h3 : get_field_aux (key.filter (fun s => s ≠ "")) v
          (key.filter (fun s => s ≠ "")) default with
      | error e2 =>
        rw [h3] at ihv
        simp [forget_path] at ihv
      | ok r2 =>
        rw [h3] at ihv
        simp [forget_path] at ihv
        subst ihv
        cases h2 : get_field_list vs key default with
        | error e =>
          rw [h2] at ihvs
          cases h4 : get_field_list vs (key.filter (fun s => s ≠ ""))
              default with
          | error e2 => simp [forget_path_list]
          | ok rs2 =>
            rw [h4] at ihvs
            simp [forget_path_list] at ihvs
        | ok rs =>
          rw [h2] at ihvs
          cases h4 : get_field_list vs (key.filter (fun s => s ≠ ""))
              default with
          | error e2 =>
            rw [h4] at ihvs
            simp [forget_path_list] at ihvs
          | ok rs2 =>
            rw [h4] at ihvs
            simp [forget_path_list] at ihvs
            subst ihvs
            simp [forget_path_list]
termination_by (sizeOf l, key.length)
decreasing_by
  all_goals
    apply Prod.Lex.left
    simp only [List.cons.sizeOf_spec]
    omega

end

/-- `get_field` level: same statement for the caller-facing entry point. -/
theorem get_field_filter_empty_main (obj : Value) (key : List String)
    (default : Value) :
    forget_path (get_field obj key default) =
      forget_path (get_field obj (key.filter (fun s => s ≠ "")) default) :=
  get_field_filter_empty_aux key obj key default _

/-- The backtick character, `Definitions.escape_quote`'s default. -/
def backquote : Char := Char.ofNat 96

/-- The single-quote character (for the model of Python literal strings). -/
def squote : Char := Char.ofNat 39

/-- The double-quote character. -/
def dquote : Char := Char.ofNat 34

/-- The `{` character, used by the format operator's placeholders. -/
def lbrace : Char := Char.ofNat 123

/-- The `}` character. -/
def rbrace : Char := Char.ofNat 125

/-- `Definitions` from `template_dict/templates.py`.  The source stores the
bracket pair as the two-character string `"[]"` and all other syntax items as
one-character strings (the documented invariant); they are modelled as `Char`
fields.  `empty_default` may be an exception class (the raising sentinel
`Value.vexc`, default `KeyError`) or any value. -/
structure Definitions where
  bracket_open : Char := '['
  bracket_close : Char := ']'
  operator_sign : Char := '!'
  operator_delimiter : Char := ':'
  key_delimiter : Char := '.'
  empty_default : Value := .vexc
  fmt_empty_default : Value := .vstr "-"
  fmt_key_delimiter : Char := '-'
  fmt_join_delimiter : String := ","
  default_operator : String := "s"
  escape_quote : Char := backquote

/-- The `Definitions()` instance a `Template` builds when none is supplied. -/
def default_defs : Definitions := {}

/-- The three built-in operator kinds (`OperatorSelect`, `OperatorExec`,
`OperatorFormat`). -/
inductive OpKind where
  | s
  | x
  | f
deriving DecidableEq

/-- The default `OPERATORS` registry (`self.operators[op]`; raises `KeyError`
on a miss).  Custom registries are outside the claims' scope. -/
def operators_lookup : String → Option OpKind
  | "s" => some .s
  | "x" => some .x
  | "f" => some .f
  | _ => none

/-- A parsed operator argument: `Template._parse_string` returns either a
plain string or an `Operator` node (kind + argument list). -/
inductive Arg where
  | astr : String → Arg
  | anode : OpKind → List Arg → Arg

/-- Parse-time failures of `Template` construction: the `ValueError` for
unbalanced brackets (carrying the context key and the raw string), the
`IndexError` from reading `args[0]` of an empty argument list, and the
`KeyError` from an operator-registry miss. -/
inductive ParseErr where
  | unbalanced : Option String → String → ParseErr
  | index_out_of_range : ParseErr
  | unknown_operator : String → ParseErr
deriving DecidableEq

/-- One step of the loop's quote toggle: `if v == escape_quote: quoted = not
quoted`. -/
def quote_step (d : Definitions) (c : Char) (quoted : Bool) : Bool :=
  if c = d.escape_quote then !quoted else quoted

/-- One step of the loop's bracket counter: the `elif` chain (which sees the
pre-toggle `quoted`). -/
def counter_step (d : Definitions) (c : Char) (quoted : Bool)
    (counter : Int) : Int :=
  if c = d.escape_quote then counter
  else if c = d.bracket_open ∧ quoted = false then counter + 1
  else if c = d.bracket_close ∧ quoted = false then counter - 1
  else counter

/-- The argument-splitting loop of `Template._parse_string`: walks the
bracket-stripped interior maintaining the quote toggle and the bracket-depth
counter, splitting at top-level delimiters.  Returns the split segments (the
`s[x:n]` slices appended in the loop) and the final tail `s[x:]`.  The
delimiter test uses the updated flag and counter, as in the source. -/
def split_chunks (d : Definitions) :
    List Char → Int → Bool → List Char → List (List Char) →
      List (List Char) × List Char
  | [], _, _, cur, acc => (acc.reverse, cur.reverse)
  | c :: cs, counter, quoted, cur, acc =>
    if c = d.operator_delimiter ∧ quote_step d c quoted = false ∧
        counter_step d c quoted counter = 0 then
      split_chunks d cs (counter_step d c quoted counter)
        (quote_step d c quoted) [] (cur.reverse :: acc)
    else
      split_chunks d cs (counter_step d c quoted counter)
        (quote_step d c quoted) (c :: cur) acc

/-- Character conservation of the splitting loop, as an inequality: total
segment characters plus segment count plus tail length never exceed the input
plus the running state. -/
theorem split_chunks_length (d : Definitions) :
    ∀ (l : List Char) (counter : Int) (quoted : Bool) (cur : List Char)
      (acc : List (List Char)),
      (((split_chunks d l counter quoted cur acc).1.map List.length).sum +
          (split_chunks d l counter quoted cur acc).1.length +
          (split_chunks d l counter quoted cur acc).2.length) ≤
        ((acc.map List.length).sum + acc.length + cur.length + l.length) := by
  intro l
  induction l with
  | nil =>
    intro counter quoted cur acc
    simp [split_chunks, List.sum_reverse]
  | cons c cs ih =>
    intro counter quoted cur acc
    rw [split_chunks]
    split
    · have h2 := ih (counter_step d c quoted counter) (quote_step d c quoted)
        [] (cur.reverse :: acc)
      simp only [List.map_cons, List.sum_cons, List.length_cons,
        List.length_reverse, List.length_nil] at h2 ⊢
      omega
    · have h2 := ih (counter_step d c quoted counter) (quote_step d c quoted)
        (c :: cur) acc
      simp only [List.length_cons] at h2 ⊢
      omega

/-- Termination measure of a list of argument substrings. -/
def chunks_measure (l : List (List Char)) : Nat :=
  (l.map (fun c => 2 * c.length + 1)).sum

theorem chunks_measure_eq (l : List (List Char)) :
    chunks_measure l = 2 * (l.map List.length).sum + l.length := by
  induction l with
  | nil => simp [chunks_measure]
  | cons c cs ih =>
    simp [chunks_measure] at ih ⊢
    omega

/-- The argument substrings of one `_parse_string` call: the loop's split
segments followed by the non-empty tail (`if s: args.append(...)`). -/
def split_pieces (d : Definitions) (interior : List Char) :
    List (List Char) :=
  if (split_chunks d interior 0 false [] []).2 = [] then
    (split_chunks d interior 0 false [] []).1
  else
    (split_chunks d interior 0 false [] []).1 ++
      [(split_chunks d interior 0 false [] []).2]

theorem chunks_measure_split_pieces_lt (d : Definitions)
    (interior : List Char) (n : Nat) (hb : interior.length < n) :
    chunks_measure (split_pieces d interior) < 2 * n := by
  have h := split_chunks_length d interior 0 false [] []
  simp only [List.map_nil, List.sum_nil, List.length_nil, Nat.zero_add] at h
  rw [split_pieces]
  split
  · rw [chunks_measure_eq]
    omega
  · rw [chunks_measure_eq]
    simp only [List.map_append, List.sum_append, List.length_append,
      List.map_cons, List.sum_cons, List.length_cons, List.map_nil,
      List.sum_nil, List.length_nil]
    omega

/-- `args[0].startswith(operator_sign)` with the one-character sign. -/
def starts_with_char (l : List Char) (c : Char) : Bool :=
  match l with
  | [] => false
  | c0 :: _ => c0 = c

/-- `type(arg) is str` projection over parsed arguments (used by the keys
collection `keys.extend(arg for arg in args if type(arg) is str)`). -/
def arg_str : Arg → Option String
  | .astr t => some t
  | .anode _ _ => none

mutual

/-- `Template._parse_string`: parse one schema string into a plain string or
an operator node, threading the shared `keys` collector.  `key` is the
enclosing mapping key (context for the unbalanced-bracket error). -/
def parse_string (d : Definitions) (key : Option String) (keys : List String)
    (s : List Char) : Except ParseErr (Arg × List String) :=
  match s with
  | [] =>
    -- `if not s: return s`
    .ok (.astr "", keys)
  | c0 :: rest =>
    let cl := (c0 :: rest).getLast (by simp)
    if c0 ≠ d.bracket_open ∧ cl ≠ d.bracket_close then
      -- plain string, possibly escape-quoted: strip one quote from each end
      if c0 = d.escape_quote ∧ cl = d.escape_quote then
        .ok (.astr (String.mk rest.dropLast), keys)
      else
        .ok (.astr (String.mk (c0 :: rest)), keys)
    else if c0 ≠ d.bracket_open ∨ cl ≠ d.bracket_close then
      -- exactly one of the two brackets matches
      .error (.unbalanced key (String.mk (c0 :: rest)))
    else
      -- balanced: strip the outer brackets, split and parse the arguments
      match parse_chunks d key keys (split_pieces d rest.dropLast) with
      | .error e => .error e
      | .ok (args, keys2) =>
        match args with
        | [] =>
          -- `args[0]` of an empty list: IndexError
          .error .index_out_of_range
        | a0 :: restArgs =>
          let opname_args : String × List Arg :=
            match a0 with
            | .astr s0 =>
              if starts_with_char s0.data d.operator_sign then
                (String.mk (s0.data.drop 1), restArgs)
              else (d.default_operator, .astr s0 :: restArgs)
            | .anode k2 a2 => (d.default_operator, .anode k2 a2 :: restArgs)
          match operators_lookup opname_args.1 with
          | none => .error (.unknown_operator opname_args.1)
          | some kind =>
            let keys3 :=
              if kind = OpKind.s then
                keys2 ++ opname_args.2.filterMap arg_str
              else keys2
            .ok (.anode kind opname_args.2, keys3)
termination_by 2 * s.length
decreasing_by
  apply chunks_measure_split_pieces_lt
  simp only [List.length_dropLast, List.length_cons]
  omega

/-- Sequential parsing of the split argument substrings (the loop's
`args.append(self._parse_string(s[x:n], ...))` calls and the tail). -/
def parse_chunks (d : Definitions) (key : Option String) (keys : List String)
    (chunks : List (List Char)) : Except ParseErr (List Arg × List String) :=
  match chunks with
  | [] => .ok ([], keys)
  | c :: cs =>
    match parse_string d key keys c with
    | .error e => .error e
    | .ok (a, keys2) =>
      match parse_chunks d key keys2 cs with
      | .error e => .error e
      | .ok (as2, keys3) => .ok (a :: as2, keys3)
termination_by chunks_measure chunks
decreasing_by
  all_goals
    simp only [chunks_measure, List.map_cons, List.sum_cons]
    omega

end

/-- A parsed schema value (`Template._schema`): every string leaf replaced by
a plain string or an operator node; list/tuple schema nodes both become
tuples (`tuple(self._parse_value(v, ...) for v in value)`). -/
inductive PValue where
  | pstr : String → PValue
  | pop : OpKind → List Arg → PValue
  | pint : Int → PValue
  | pbool : Bool → PValue
  | pnull : PValue
  | pexc : PValue
  | pmap : List (String × PValue) → PValue
  | ptup : List PValue → PValue

/-- Wrap a parsed expression result as a parsed-schema leaf. -/
def arg_to_pvalue : Arg → PValue
  | .astr s => .pstr s
  | .anode k a => .pop k a

mutual

/-- `Template._parse_value`: recursive schema walk.  Dicts recurse with the
entry key as context, strings go through `_parse_string`, other iterables
(lists and tuples) become tuples of parsed elements, all other scalars pass
through. -/
def parse_value (d : Definitions) (key : Option String) (keys : List String) :
    Value → Except ParseErr (PValue × List String)
  | .vmap m =>
    match parse_entries d keys m with
    | .error e => .error e
    | .ok (es, keys2) => .ok (.pmap es, keys2)
  | .vstr s =>
    match parse_string d key keys s.data with
    | .error e => .error e
    | .ok (a, keys2) => .ok (arg_to_pvalue a, keys2)
  | .vlist l =>
    match parse_list d key keys l with
    | .error e => .error e
    | .ok (ps, keys2) => .ok (.ptup ps, keys2)
  | .vtup l =>
    match parse_list d key keys l with
    | .error e => .error e
    | .ok (ps, keys2) => .ok (.ptup ps, keys2)
  | .vint n => .ok (.pint n, keys)
  | .vbool b => .ok (.pbool b, keys)
  | .vnull => .ok (.pnull, keys)
  | .vexc => .ok (.pexc, keys)
termination_by v => sizeOf v

/-- Element-wise parsing of a sequence schema node. -/
def parse_list (d : Definitions) (key : Option String) (keys : List String) :
    List Value → Except ParseErr (List PValue × List String)
  | [] => .ok ([], keys)
  | v :: vs =>
    match parse_value d key keys v with
    | .error e => .error e
    | .ok (p, keys2) =>
      match parse_list d key keys2 vs with
      | .error e => .error e
      | .ok (ps, keys3) => .ok (p :: ps, keys3)
termination_by l => sizeOf l

/-- Entry-wise parsing of a dict schema node (`key=k` context threaded). -/
def parse_entries (d : Definitions) (keys : List String) :
    List (String × Value) → Except ParseErr (List (String × PValue) × List String)
  | [] => .ok ([], keys)
  | (k, v) :: es =>
    match parse_value d (some k) keys v with
    | .error e => .error e
    | .ok (p, keys2) =>
      match parse_entries d keys2 es with
      | .error e => .error e
      | .ok (ps, keys3) => .ok ((k, p) :: ps, keys3)
termination_by l => sizeOf l

end

/-- Evaluation-time failures: the `KeyError` raised by `get_field` on a
missing key with a raising default, the `ValueError` from `literal_eval` in
`OperatorExec.eval`, the `IndexError` from `args[0]` on an empty evaluated
argument tuple, the `KeyError` from the `FUNCTIONS` registry, and
`TypeError`/`ValueError` raised inside built-in functions or by non-string
operands where Python requires strings. -/
inductive EvalErr where
  | missing_key : List String → EvalErr
  | literal_error : String → EvalErr
  | index_out_of_range : EvalErr
  | unknown_function : String → EvalErr
  | type_error : EvalErr
  | value_error : EvalErr
  | format_error : EvalErr
deriving DecidableEq

/-- Decimal numeral (all digits, no extra leading zero, non-empty). -/
def dec_digits (l : List Char) : Option Nat :=
  if l ≠ [] ∧ l.all Char.isDigit ∧ (l.head? = some '0' → l.length = 1) then
    some (l.foldl (fun acc c => 10 * acc + (c.toNat - 48)) 0)
  else none

/-- Integer literal with an optional sign. -/
def int_literal : List Char → Option Int
  | '-' :: ds => (dec_digits ds).map (fun n => -(n : Int))
  | '+' :: ds => (dec_digits ds).map (fun n => (n : Int))
  | ds => (dec_digits ds).map (fun n => (n : Int))

/-- Simple quoted string literal, delimiter `q`, no escapes and no embedded
quote characters. -/
def quoted_literal (q : Char) : List Char → Option Value
  | [] => none
  | c :: rest =>
    if c = q ∧ rest ≠ [] ∧ rest.getLast? = some q ∧
        rest.dropLast.all (fun ch => ch ≠ q ∧ ch ≠ '\\') then
      some (.vstr (String.mk rest.dropLast))
    else none

/-- Modelled from `ast.literal_eval` (Python standard library), restricted to
the literal forms this development exercises: `True`/`False`/`None`, decimal
integers with an optional sign, and simple single- or double-quoted strings
without escapes.  Every other input is a failure (`ast.literal_eval` raises
on bare identifiers and malformed input; float, container and escaped-string
literals are outside every claim's inputs and are conservatively treated as
failures here). -/
def literal_eval (s : String) : Option Value :=
  if s = "True" then some (.vbool true)
  else if s = "False" then some (.vbool false)
  else if s = "None" then some .vnull
  else
    match int_literal s.data with
    | some n => some (.vint n)
    | none =>
      match quoted_literal squote s.data with
      | some v => some v
      | none => quoted_literal dquote s.data

example : literal_eval "42" = some (.vint 42) := by rfl
example : literal_eval "bar" = none := by rfl
example : literal_eval "x" = none := by rfl

mutual

/-- Modelled from Python's `repr` on the value types of this development
(used by the `str` builtin, which receives the whole argument list, and by
format rendering).  The rendering of an exception class approximates
`repr(KeyError)`. -/
def py_repr : Value → String
  | .vstr s => String.mk (squote :: (s.data ++ [squote]))
  | .vint n => toString n
  | .vbool true => "True"
  | .vbool false => "False"
  | .vnull => "None"
  | .vexc =>
    "<class " ++ String.mk [squote] ++ "KeyError" ++ String.mk [squote] ++ ">"
  | .vmap m => "\x7b" ++ py_repr_entries m ++ "\x7d"
  | .vlist l => "[" ++ py_repr_list l ++ "]"
  | .vtup l =>
    "(" ++ py_repr_list l ++ (if l.length = 1 then ",)" else ")")
termination_by v => sizeOf v

def py_repr_list : List Value → String
  | [] => ""
  | [v] => py_repr v
  | v :: vs => py_repr v ++ ", " ++ py_repr_list vs
termination_by l => sizeOf l

def py_repr_entries : List (String × Value) → String
  | [] => ""
  | [(k, v)] => py_repr (.vstr k) ++ ": " ++ py_repr v
  | (k, v) :: es =>
    py_repr (.vstr k) ++ ": " ++ py_repr v ++ ", " ++ py_repr_entries es
termination_by l => sizeOf l

end

/-- Modelled from Python's `str`: identical to `repr` except on strings. -/
def py_str : Value → String
  | .vstr s => s
  | v => py_repr v

/-- All-integers view of an argument list (the built-in aggregates are
modelled on integer arguments; mixed or non-numeric arguments are a
`TypeError` in Python and are mapped to `type_error`). -/
def as_int_list : List Value → Option (List Int)
  | [] => some []
  | .vint n :: vs => (as_int_list vs).map (fun ns => n :: ns)
  | _ => none

/-- `max(func_args)`: `ValueError` on an empty sequence. -/
def py_max (args : List Value) : Except EvalErr Value :=
  match as_int_list args with
  | some [] => .error .value_error
  | some (n :: ns) => .ok (.vint (ns.foldl max n))
  | none => .error .type_error

/-- `min(func_args)`. -/
def py_min (args : List Value) : Except EvalErr Value :=
  match as_int_list args with
  | some [] => .error .value_error
  | some (n :: ns) => .ok (.vint (ns.foldl min n))
  | none => .error .type_error

/-- `sum(func_args)`: `sum([]) == 0`. -/
def py_sum (args : List Value) : Except EvalErr Value :=
  match as_int_list args with
  | some ns => .ok (.vint (ns.foldl (· + ·) 0))
  | none => .error .type_error

/-- The built-in `FUNCTIONS` registry.  `OperatorExec.eval` calls
`f(func_args)` — one positional argument, the whole list — so `int`/`float`
(which reject lists) and `timestamp`/`uuid` (zero-parameter callables) always
raise `TypeError` through this operator; `str` renders the list; `bool` is
the list's truthiness; the aggregates fold over the list. -/
def functions_lookup : String → Option (List Value → Except EvalErr Value)
  | "int" => some (fun _ => .error .type_error)
  | "float" => some (fun _ => .error .type_error)
  | "str" => some (fun args => .ok (.vstr (py_repr (.vlist args))))
  | "bool" => some (fun args => .ok (.vbool (!args.isEmpty)))
  | "min" => some py_min
  | "max" => some py_max
  | "sum" => some py_sum
  | "timestamp" => some (fun _ => .error .type_error)
  | "uuid" => some (fun _ => .error .type_error)
  | _ => none

/-- The key argument of a select, as `get_field` receives it: a string is
split on the key delimiter; a list/tuple is used as an already-split segment
sequence (string segments only — other element types are outside the claims
and are mapped to `type_error`, as is a non-iterable key, which raises
`TypeError` in Python). -/
def key_of (delim : Char) : Value → Except EvalErr (List String)
  | .vstr s => .ok (py_split delim s)
  | .vlist l =>
    match l.mapM (fun e => match e with | .vstr s => some s | _ => none) with
    | some ks => .ok ks
    | none => .error .type_error
  | .vtup l =>
    match l.mapM (fun e => match e with | .vstr s => some s | _ => none) with
    | some ks => .ok ks
    | none => .error .type_error
  | _ => .error .type_error

/-- `OperatorSelect.eval` on the already-evaluated argument tuple.  Evaluated
arguments are never operator nodes (`_eval_args` replaced them), so the
`isinstance(default, Operator)` guard never fires and `literal_eval` is
attempted on every explicit fallback, with failures suppressed
(`with suppress(Exception)`). -/
def select_eval (d : Definitions) (vals : List Value)
    (data : List (String × Value)) : Except EvalErr Value :=
  match vals with
  | [] => .error .index_out_of_range
  | arg0 :: restVals =>
    let dflt : Value :=
      match restVals with
      | [] => d.empty_default
      | a1 :: _ =>
        match a1 with
        | .vstr s1 => (literal_eval s1).getD (.vstr s1)
        | _ => a1
    match key_of d.key_delimiter arg0 with
    | .error e => .error e
    | .ok ks =>
      match get_field (.vmap data) ks dflt with
      | .error p => .error (.missing_key p)
      | .ok v => .ok v

/-- The `zip(self.args[1:], args)` loop of `OperatorExec.eval`: an argument
that was originally a literal string is re-parsed with `literal_eval`, and a
failure there RAISES (`ValueError` propagates — there is no `suppress` in
this loop); nested-operator results pass through unchanged. -/
def coerce_exec_args : List Arg → List Value → Except EvalErr (List Value)
  | _, [] => .ok []
  | [], _ :: _ => .ok []
  | .astr _ :: os, v :: vs =>
    match v with
    | .vstr sv =>
      match literal_eval sv with
      | none => .error (.literal_error sv)
      | some w =>
        match coerce_exec_args os vs with
        | .error e => .error e
        | .ok r => .ok (w :: r)
    | _ => .error .type_error
  | .anode _ _ :: os, v :: vs =>
    match coerce_exec_args os vs with
    | .error e => .error e
    | .ok r => .ok (v :: r)

/-- `OperatorExec.eval`: coerce the arguments (which happens before the
function lookup), then look up `functions[func_name]` and call
`f(func_args)`. -/
def exec_eval (origArgs : List Arg) (vals : List Value) :
    Except EvalErr Value :=
  match vals with
  | [] => .error .index_out_of_range
  | f0 :: fvals =>
    match coerce_exec_args (origArgs.drop 1) fvals with
    | .error e => .error e
    | .ok func_args =>
      match f0 with
      | .vstr fname =>
        match functions_lookup fname with
        | none => .error (.unknown_function fname)
        | some f => f func_args
      | _ => .error .type_error

/-- Modelled from Python's `str.format_map` restricted to plain `{field}`
placeholders (no conversion/format specs, no `\x7b\x7b` escapes — none are
used by the claims): each field is resolved through the `_FormatDict`, i.e.
`get_field(data, item, default=fmt_empty_default,
delimiter=fmt_key_delimiter)`, and rendered with `str`.  A stray or
unterminated brace raises, as in Python. -/
def format_map_aux (d : Definitions) (data : List (String × Value)) :
    List Char → Option (List Char) → Except EvalErr (List Char)
  | [], none => .ok []
  | [], some _ => .error .format_error
  | c :: cs, none =>
    if c = lbrace then format_map_aux d data cs (some [])
    else if c = rbrace then .error .format_error
    else
      match format_map_aux d data cs none with
      | .error e => .error e
      | .ok r => .ok (c :: r)
  | c :: cs, some fld =>
    if c = rbrace then
      match get_field (.vmap data)
          (py_split d.fmt_key_delimiter (String.mk fld.reverse))
          d.fmt_empty_default with
      | .error p => .error (.missing_key p)
      | .ok v =>
        match format_map_aux d data cs none with
        | .error e => .error e
        | .ok r => .ok ((py_str v).data ++ r)
    else format_map_aux d data cs (some (c :: fld))

/-- `OperatorFormat.eval`: every evaluated argument must be a string
(`arg.format_map` — a non-string raises `AttributeError`, mapped to
`type_error`); the rendered strings are joined with `fmt_join_delimiter`. -/
def format_eval (d : Definitions) (vals : List Value)
    (data : List (String × Value)) : Except EvalErr Value :=
  match vals.mapM (fun v =>
      match v with
      | Value.vstr s =>
        (format_map_aux d data s.data none).map String.mk
      | _ => (.error .type_error : Except EvalErr String)) with
  | .error e => .error e
  | .ok rendered => .ok (.vstr (String.intercalate d.fmt_join_delimiter rendered))

mutual

/-- `Operator._eval_args`: arguments that are operator nodes are evaluated
against the data; literal strings pass through as string values. -/
def eval_args (d : Definitions) (args : List Arg)
    (data : List (String × Value)) : Except EvalErr (List Value) :=
  match args with
  | [] => .ok []
  | .astr s :: as2 =>
    match eval_args d as2 data with
    | .error e => .error e
    | .ok vs => .ok (.vstr s :: vs)
  | .anode k nargs :: as2 =>
    match eval_op d k nargs data with
    | .error e => .error e
    | .ok v =>
      match eval_args d as2 data with
      | .error e => .error e
      | .ok vs => .ok (v :: vs)
termination_by sizeOf args

/-- `Operator.__call__`: evaluate the argument tuple, then dispatch to the
kind-specific `eval`. -/
def eval_op (d : Definitions) (kind : OpKind) (args : List Arg)
    (data : List (String × Value)) : Except EvalErr Value :=
  match eval_args d args data with
  | .error e => .error e
  | .ok vals =>
    match kind with
    | .s => select_eval d vals data
    | .x => exec_eval args vals
    | .f => format_eval d vals data
termination_by 1 + sizeOf args

end

mutual

/-- `Template._fill_value`: strings pass through, mappings and sequences are
rebuilt element-wise (any iterable — here, the parse-produced tuples — is
rebuilt as a `list`), operator nodes are invoked with the data, and all other
scalars pass through. -/
def fill_value (d : Definitions) (v : PValue)
    (data : List (String × Value)) : Except EvalErr Value :=
  match v with
  | .pstr s => .ok (.vstr s)
  | .pmap m =>
    match fill_entries d m data with
    | .error e => .error e
    | .ok es => .ok (.vmap es)
  | .ptup l =>
    match fill_list d l data with
    | .error e => .error e
    | .ok vs => .ok (.vlist vs)
  | .pop k args => eval_op d k args data
  | .pint n => .ok (.vint n)
  | .pbool b => .ok (.vbool b)
  | .pnull => .ok .vnull
  | .pexc => .ok .vexc
termination_by sizeOf v

def fill_list (d : Definitions) (l : List PValue)
    (data : List (String × Value)) : Except EvalErr (List Value) :=
  match l with
  | [] => .ok []
  | v :: vs =>
    match fill_value d v data with
    | .error e => .error e
    | .ok r =>
      match fill_list d vs data with
      | .error e => .error e
      | .ok rs => .ok (r :: rs)
termination_by sizeOf l

def fill_entries (d : Definitions) (l : List (String × PValue))
    (data : List (String × Value)) : Except EvalErr (List (String × Value)) :=
  match l with
  | [] => .ok []
  | (k, v) :: es =>
    match fill_value d v data with
    | .error e => .error e
    | .ok r =>
      match fill_entries d es data with
      | .error e => .error e
      | .ok rs => .ok ((k, r) :: rs)
termination_by sizeOf l

end

/-- A constructed `Template`: the original schema, the definitions, the
parsed schema and the keys collector (the source stores `frozenset(keys)`;
the list is kept here and set-level statements are made in the theorems). -/
structure Template where
  schema : Value
  definitions : Definitions
  pschema : PValue
  keys : List String

/-- `Template.__init__` with explicit definitions: one-time parse; any parse
error aborts construction and no `Template` is produced. -/
def Template.make (d : Definitions) (schema : Value) :
    Except ParseErr Template :=
  match parse_value d none [] schema with
  | .error e => .error e
  | .ok (p, ks) => .ok ⟨schema, d, p, ks⟩

/-- `Template.eval(data)`. -/
def Template.eval (t : Template) (data : List (String × Value)) :
    Except EvalErr Value :=
  fill_value t.definitions t.pschema data

/-- `Template(schema).eval(data)` composed: the outer `Except` is Template
construction, the inner one evaluation. -/
def template_eval (d : Definitions) (schema : Value)
    (data : List (String × Value)) :
    Except ParseErr (Except EvalErr Value) :=
  (Template.make d schema).map (fun t => t.eval data)

/-- `Template(schema).keys` (as the collector list). -/
def template_keys (d : Definitions) (schema : Value) :
    Except ParseErr (List String) :=
  (Template.make d schema).map Template.keys

/-- Wrap a resolver outcome as an evaluation outcome (`KeyError` propagating
out of `OperatorSelect.eval`). -/
def except_wrap : Except (List String) Value → Except EvalErr Value
  | .error p => .error (.missing_key p)
  | .ok v => .ok v

/-- C1: when traversal reaches a sequence, the remaining path is resolved
independently against every element (`List.mapM` of the resolver) and the
result is a same-shaped sequence of per-element results, recursively;
concretely, `a.b` with default null against
`[{a:{b:1}}, {a:{b:2}}, {a:{}}]` yields `[1, 2, null]`, and `b.c.d` with
default null against `[{b:{c:[{d:1},{d:2},{}]}}, {b:3}]` yields
`[[1, 2, null], null]`. -/
theorem broadcast_resolution :
    (get_field_str
        (.vlist [.vmap [("a", .vmap [("b", .vint 1)])],
          .vmap [("a", .vmap [("b", .vint 2)])],
          .vmap [("a", .vmap [])]])
        "a.b" .vnull '.' =
      .ok (.vlist [.vint 1, .vint 2, .vnull])) ∧
    (get_field_str
        (.vlist [.vmap [("b", .vmap [("c", .vlist [.vmap [("d", .vint 1)],
          .vmap [("d", .vint 2)], .vmap []])])], .vmap [("b", .vint 3)]])
        "b.c.d" .vnull '.' =
      .ok (.vlist [.vlist [.vint 1, .vint 2, .vnull], .vnull])) ∧
    (∀ (l : List Value) (k : String) (rest full : List String)
        (default : Value), k ≠ "" →
      get_field_aux full (.vlist l) (k :: rest) default =
        (l.mapM (fun e => get_field e (k :: rest) default)).map
          Value.vlist) := by
  refine ⟨?_, ?_, ?_⟩
  · have e1 : py_split '.' "a.b" = ["a", "b"] := by decide
    rw [get_field_str, e1, get_field]
    rw [get_field_aux_vlist _ _ _ _ _ (by decide), get_field_list_eq_mapM]
    have h1 : get_field (.vmap [("a", .vmap [("b", .vint 1)])]) ["a", "b"]
        .vnull = .ok (.vint 1) := by
      rw [get_field, get_field_aux_vmap_found _ _ _ (by decide) (by rfl),
        get_field_aux_vmap_found _ _ _ (by decide) (by rfl),
        get_field_aux_nil]
    have h2 : get_field (.vmap [("a", .vmap [("b", .vint 2)])]) ["a", "b"]
        .vnull = .ok (.vint 2) := by
      rw [get_field, get_field_aux_vmap_found _ _ _ (by decide) (by rfl),
        get_field_aux_vmap_found _ _ _ (by decide) (by rfl),
        get_field_aux_nil]
    have h3 : get_field (.vmap [("a", .vmap [])]) ["a", "b"] .vnull =
        .ok .vnull := by
      rw [get_field, get_field_aux_vmap_found _ _ _ (by decide) (by rfl),
        get_field_aux_vmap_missing _ _ _ (by decide) (by rfl)]
      rfl
    simp only [List.mapM_cons, List.mapM_nil, h1, h2, h3, bind, Except.bind,
      pure, Except.pure, Except.map]
  · have e1 : py_split '.' "b.c.d" = ["b", "c", "d"] := by decide
    rw [get_field_str, e1, get_field]
    rw [get_field_aux_vlist _ _ _ _ _ (by decide), get_field_list_eq_mapM]
    have hd1 : get_field (.vmap [("d", .vint 1)]) ["d"] .vnull =
        .ok (.vint 1) := by
      rw [get_field, get_field_aux_vmap_found _ _ _ (by decide) (by rfl),
        get_field_aux_nil]
    have hd2 : get_field (.vmap [("d", .vint 2)]) ["d"] .vnull =
        .ok (.vint 2) := by
      rw [get_field, get_field_aux_vmap_found _ _ _ (by decide) (by rfl),
        get_field_aux_nil]
    have hd3 : get_field (.vmap []) ["d"] .vnull = .ok .vnull := by
      rw [get_field, get_field_aux_vmap_missing _ _ _ (by decide) (by rfl)]
      rfl
    have h1 : get_field
        (.vmap [("b", .vmap [("c", .vlist [.vmap [("d", .vint 1)],
          .vmap [("d", .vint 2)], .vmap []])])]) ["b", "c", "d"] .vnull =
        .ok (.vlist [.vint 1, .vint 2, .vnull]) := by
      rw [get_field, get_field_aux_vmap_found _ _ _ (by decide) (by rfl),
        get_field_aux_vmap_found _ _ _ (by decide) (by rfl),
        get_field_aux_vlist _ _ _ _ _ (by decide), get_field_list_eq_mapM]
      simp only [List.mapM_cons, List.mapM_nil, hd1, hd2, hd3, bind,
        Except.bind, pure, Except.pure, Except.map]
    have h2 : get_field (.vmap [("b", .vint 3)]) ["b", "c", "d"] .vnull =
        .ok .vnull := by
      rw [get_field, get_field_aux_vmap_found _ _ _ (by decide) (by rfl),
        get_field_aux_scalar_cons _ _ _ _ _ (by rfl) (by decide)]
    simp only [List.mapM_cons, List.mapM_nil, h1, h2, bind, Except.bind,
      pure, Except.pure, Except.map]
  · intro l k rest full default hk
    rw [get_field_aux_vlist full default k rest l hk,
      get_field_list_eq_mapM]

theorem broadcast_resolution_witness :
    get_field_aux ["q"] (.vlist [.vmap [("q", .vint 7)], .vnull]) ["q"]
        .vnull =
      (([Value.vmap [("q", .vint 7)], Value.vnull].mapM
        (fun e => get_field e ["q"] .vnull)).map Value.vlist) :=
  broadcast_resolution.2.2 [.vmap [("q", .vint 7)], .vnull] "q" [] ["q"]
    .vnull (by decide)

/-- C2 counterexample: with the raising default (`KeyError`), reaching the
scalar `5` mid-path does NOT raise — the exception class itself is returned
as the resolved value (`return default` without the raise test), where the
claim demands a raised MissingKey error. -/
theorem scalar_mid_path_counterexample :
    get_field (.vmap [("a", .vint 5)]) ["a", "b"] .vexc = .ok .vexc := by
  simp [get_field, get_field_aux, List.lookup]

/-- C2 (amended): if traversal reaches a value that is neither a mapping nor
a sequence while a non-empty segment remains, that branch yields the
configured default as a plain value in every case — including when the
default denotes "raise", in which case the exception class itself is
returned, not raised. -/
theorem scalar_mid_path_yields_default (obj : Value) (key : List String)
    (default : Value) (hsc : obj.is_scalar = true)
    (hrem : ∃ s ∈ key, s ≠ "") :
    get_field obj key default = .ok default :=
  get_field_aux_scalar key key obj default hsc hrem

theorem scalar_mid_path_yields_default_witness :
    get_field (.vint 5) ["b"] .vexc = .ok .vexc :=
  scalar_mid_path_yields_default (.vint 5) ["b"] .vexc (by decide)
    ⟨"b", by simp⟩

/-- C7: parsing the expression `[key]` and evaluating it against `{key: v}`
yields `v`, for every non-mapping, non-sequence `v`. -/
theorem select_round_trip (v : Value) (h1 : v.is_dict = false)
    (h2 : v.is_seq = false) :
    template_eval default_defs (.vstr "[key]") [("key", v)] =
      .ok (.ok v) := by
  simp [template_eval, Template.make, Template.eval, Except.map, parse_value,
    parse_string, parse_chunks, split_pieces, split_chunks, quote_step,
    counter_step, default_defs, starts_with_char, operators_lookup, arg_str,
    arg_to_pvalue, fill_value, eval_op, eval_args, select_eval, key_of,
    py_split, py_split_aux, get_field, get_field_aux, get_field_list,
    List.lookup, literal_eval, backquote, String.data, Value.is_exc]

theorem select_round_trip_witness :
    template_eval default_defs (.vstr "[key]") [("key", .vint 42)] =
      .ok (.ok (.vint 42)) :=
  select_round_trip (.vint 42) (by decide) (by decide)

/-- C8 counterexample: with the raising default, resolving `["", "a"]`
against `{}` is NOT equal to resolving `["a"]` — the raised error keeps the
original path including its empty segment. -/
theorem empty_segment_counterexample :
    get_field (.vmap []) ["", "a"] .vexc = .error ["", "a"] ∧
    get_field (.vmap []) ["a"] .vexc = .error ["a"] ∧
    (Except.error ["", "a"] : Except (List String) Value) ≠
      .error ["a"] := by
  refine ⟨?_, ?_, ?_⟩
  · simp [get_field, get_field_aux, List.lookup, Value.is_exc]
  · simp [get_field, get_field_aux, List.lookup, Value.is_exc]
  · simp

/-- C8 (amended): dropping the empty segments of a path changes neither the
resolved value nor whether resolution fails (so malformed or trailing
delimiters never cause an error or a default substitution by themselves);
only the path carried inside a raised error differs, keeping the empty
segments. -/
theorem empty_segment_noop (obj : Value) (key : List String)
    (default : Value) :
    forget_path (get_field obj key default) =
      forget_path (get_field obj (key.filter (fun s => s ≠ "")) default) :=
  get_field_filter_empty_main obj key default

/-- C10: a path whose segments are all empty resolves to the container
itself, and a Select with an empty path argument returns the whole data
mapping (`[:x]` parses to a Select whose path argument is `""`). -/
theorem all_empty_path_identity :
    (∀ (obj : Value) (key : List String) (default : Value),
        (∀ s ∈ key, s = "") → get_field obj key default = .ok obj) ∧
    (∀ data : List (String × Value),
        template_eval default_defs (.vstr "[:x]") data =
          .ok (.ok (.vmap data))) := by
  constructor
  · intro obj key default h
    exact get_field_aux_all_empty key key obj default h
  · intro data
    simp [template_eval, Template.make, Template.eval, Except.map,
      parse_value, parse_string, parse_chunks, split_pieces, split_chunks,
      quote_step, counter_step, default_defs, starts_with_char,
      operators_lookup, arg_str, arg_to_pvalue, fill_value, eval_op,
      eval_args, select_eval, key_of, py_split, py_split_aux, get_field,
      get_field_aux_skip, get_field_aux_nil, literal_eval, int_literal,
      dec_digits, quoted_literal, squote, dquote, backquote, String.data,
      Value.is_exc]

theorem all_empty_path_identity_witness :
    get_field (.vmap [("a", .vint 1)]) ["", ""] .vexc =
      .ok (.vmap [("a", .vint 1)]) :=
  all_empty_path_identity.1 (.vmap [("a", .vint 1)]) ["", ""] .vexc
    (by decide)

/-- C6: for every configuration and every non-empty schema string whose first
character matches the configured open bracket XOR whose last character
matches the configured close bracket, construction fails with the
unbalanced-brackets error carrying the context key (`None` for a top-level
schema string) and the raw string — and no `Template` is produced. -/
theorem unbalanced_brackets (d : Definitions) (c0 : Char) (rest : List Char)
    (hxor :
      (c0 = d.bracket_open ∧ (c0 :: rest).getLast (by simp) ≠ d.bracket_close) ∨
      (c0 ≠ d.bracket_open ∧ (c0 :: rest).getLast (by simp) = d.bracket_close)) :
    Template.make d (.vstr (String.mk (c0 :: rest))) =
      .error (.unbalanced none (String.mk (c0 :: rest))) ∧
    ∀ (key : Option String) (keys : List String),
      parse_string d key keys (c0 :: rest) =
        .error (.unbalanced key (String.mk (c0 :: rest))) := by
  have hps : ∀ (key : Option String) (keys : List String),
      parse_string d key keys (c0 :: rest) =
        .error (.unbalanced key (String.mk (c0 :: rest))) := by
    intro key keys
    rw [parse_string]
    rcases hxor with ⟨h1, h2⟩ | ⟨h1, h2⟩
    · rw [if_neg (fun hc => hc.1 h1), if_pos (Or.inr h2)]
    · rw [if_neg (fun hc => hc.2 h2), if_pos (Or.inl h1)]
  refine ⟨?_, hps⟩
  rw [Template.make]
  have : parse_value d none [] (.vstr (String.mk (c0 :: rest))) =
      .error (.unbalanced none (String.mk (c0 :: rest))) := by
    rw [parse_value]
    rw [hps none []]
  rw [this]

theorem unbalanced_brackets_witness :
    Template.make default_defs (.vstr "[name") =
      .error (.unbalanced none "[name") :=
  (unbalanced_brackets default_defs '[' ['n', 'a', 'm', 'e']
    (Or.inl (by decide))).1

/-- C9: the expression with empty interior, `[]`, fails Template
construction: the splitting loop collects no arguments, `args[0]` is read
unconditionally, and the resulting out-of-range index error (not an
unbalanced-brackets or unknown-operator error) aborts construction. -/
theorem empty_expression_index_error :
    Template.make default_defs (.vstr "[]") =
      .error .index_out_of_range := by
  simp [Template.make, parse_value, parse_string, parse_chunks, split_pieces,
    split_chunks, default_defs, String.data]

/-- C3 counterexample: in `OperatorExec.eval` there is no `suppress` around
`literal_eval` — `Template('[!x:foo:bar]').eval({})` raises the `ValueError`
from interpreting the literal string argument `bar` (before the function is
even looked up), so the failed interpretation is fatal and propagates out of
the evaluation call. -/
theorem exec_literal_failure_counterexample :
    template_eval default_defs (.vstr "[!x:foo:bar]") [] =
      .ok (.error (.literal_error "bar")) := by
  simp [template_eval, Template.make, Template.eval, Except.map, parse_value,
    parse_string, parse_chunks, split_pieces, split_chunks, quote_step,
    counter_step, default_defs, starts_with_char, operators_lookup, arg_str,
    arg_to_pvalue, fill_value, eval_op, eval_args, exec_eval,
    coerce_exec_args, literal_eval, int_literal, dec_digits, quoted_literal,
    squote, dquote, backquote, String.data]

/-- C3 (amended): a failed literal interpretation of the Select operator's
fallback argument is silent — the raw string is kept as the default and the
evaluation reduces to the field resolution with that raw default; but for
the Execute operator, a failed literal interpretation of an argument that
was originally a literal string raises and propagates out of the evaluation
call. -/
theorem literal_coercion_select_silent_exec_fatal :
    (∀ (d : Definitions) (p fb : String) (data : List (String × Value)),
        literal_eval fb = none →
        eval_op d .s [.astr p, .astr fb] data =
          except_wrap (get_field (.vmap data) (py_split d.key_delimiter p)
            (.vstr fb))) ∧
    (∀ (d : Definitions) (f a : String) (data : List (String × Value)),
        literal_eval a = none →
        eval_op d .x [.astr f, .astr a] data =
          .error (.literal_error a)) := by
  constructor
  · intro d p fb data hnone
    rw [eval_op]
    simp only [eval_args]
    rw [select_eval]
    simp only [hnone, Option.getD_none]
    rw [key_of]
    cases hgf : get_field (.vmap data) (py_split d.key_delimiter p)
        (.vstr fb) with
    | error e => simp [hgf, except_wrap]
    | ok v => simp [hgf, except_wrap]
  · intro d f a data hnone
    rw [eval_op]
    simp only [eval_args]
    rw [exec_eval]
    simp only [List.drop_succ_cons, List.drop_zero]
    rw [coerce_exec_args]
    simp [hnone]

theorem literal_coercion_witness :
    eval_op default_defs .s [.astr "k", .astr "bar"] [] =
      except_wrap (get_field (.vmap [])
        (py_split default_defs.key_delimiter "k") (.vstr "bar")) ∧
    eval_op default_defs .x [.astr "foo", .astr "bar"] [] =
      .error (.literal_error "bar") :=
  ⟨literal_coercion_select_silent_exec_fatal.1 default_defs "k" "bar" []
      (by rfl),
    literal_coercion_select_silent_exec_fatal.2 default_defs "foo" "bar" []
      (by rfl)⟩

/-- A string leaf that `_parse_string` returns unchanged: empty, or neither
bracket-ended (in which case parsing would dispatch an operator or raise) nor
wholly wrapped in the escape quote (in which case the quotes are
stripped). -/
def inert_string (d : Definitions) : List Char → Bool
  | [] => true
  | c0 :: rest =>
    !(c0 == d.bracket_open) &&
      !((c0 :: rest).getLast (by simp) == d.bracket_close) &&
      !((c0 == d.escape_quote) &&
        ((c0 :: rest).getLast (by simp) == d.escape_quote))

mutual

/-- A schema containing no operator expressions (and none of the string
forms the parser rewrites): every string leaf is inert. -/
def no_op_schema (d : Definitions) : Value → Bool
  | .vstr s => inert_string d s.data
  | .vmap m => no_op_entries d m
  | .vlist l => no_op_list d l
  | .vtup l => no_op_list d l
  | _ => true
termination_by v => sizeOf v

def no_op_list (d : Definitions) : List Value → Bool
  | [] => true
  | v :: vs => no_op_schema d v && no_op_list d vs
termination_by l => sizeOf l

def no_op_entries (d : Definitions) : List (String × Value) → Bool
  | [] => true
  | (_, v) :: es => no_op_schema d v && no_op_entries d es
termination_by l => sizeOf l

end

mutual

/-- Normalize sequence species to lists: evaluation rebuilds every sequence
as a `list`, and the claim's "same container kinds" is compared at the
mapping/sequence/scalar level. -/
def strip_seq : Value → Value
  | .vmap m => .vmap (strip_entries m)
  | .vlist l => .vlist (strip_list l)
  | .vtup l => .vlist (strip_list l)
  | v => v
termination_by v => sizeOf v

def strip_list : List Value → List Value
  | [] => []
  | v :: vs => strip_seq v :: strip_list vs
termination_by l => sizeOf l

def strip_entries : List (String × Value) → List (String × Value)
  | [] => []
  | (k, v) :: es => (k, strip_seq v) :: strip_entries es
termination_by l => sizeOf l

end

/-- An inert string parses to itself, leaving the keys collector unchanged. -/
theorem parse_string_inert (d : Definitions) (s : List Char)
    (h : inert_string d s = true) (key : Option String)
    (keys : List String) :
    parse_string d key keys s = .ok (.astr (String.mk s), keys) := by
  cases s with
  | nil => rw [parse_string]
  | cons c0 rest =>
    rw [parse_string]
    simp only [inert_string, Bool.and_eq_true, Bool.not_eq_eq_eq_not,
      Bool.not_true, beq_eq_false_iff_ne, ne_eq, Bool.and_eq_false_imp,
      beq_iff_eq] at h
    obtain ⟨⟨h1, h2⟩, h3⟩ := h
    rw [if_pos ⟨h1, h2⟩, if_neg ?hq]
    case hq =>
      intro hc
      exact absurd hc.2 (h3 hc.1)

theorem parse_fill_entries_pointwise (d : Definitions)
    (l : List (String × Value))
    (hl : ∀ p ∈ l, ∀ (key : Option String) (keys : List String),
      ∃ q : PValue, parse_value d key keys p.2 = .ok (q, keys) ∧
        ∀ data, fill_value d q data = .ok (strip_seq p.2)) :
    ∀ keys, ∃ ps, parse_entries d keys l = .ok (ps, keys) ∧
      ∀ data, fill_entries d ps data = .ok (strip_entries l) := by
  induction l with
  | nil =>
    intro keys
    refine ⟨[], by rw [parse_entries], fun data => ?_⟩
    rw [fill_entries, strip_entries]
  | cons pr es ih =>
    intro keys
    rcases pr with ⟨k, v⟩
    obtain ⟨q, hq, hfq⟩ := hl ⟨k, v⟩ (by simp) (some k) keys
    obtain ⟨ps, hps, hfs⟩ := ih (fun p hp key keys2 => hl p (by simp [hp])
      key keys2) keys
    refine ⟨(k, q) :: ps, ?_, fun data => ?_⟩
    · rw [parse_entries, hq]
      simp [hps]
    · rw [fill_entries, hfq data]
      simp [hfs data, strip_entries]

theorem parse_fill_list_pointwise (d : Definitions) (l : List Value)
    (hl : ∀ v ∈ l, ∀ (key : Option String) (keys : List String),
      ∃ q : PValue, parse_value d key keys v = .ok (q, keys) ∧
        ∀ data, fill_value d q data = .ok (strip_seq v)) :
    ∀ (key : Option String) (keys : List String),
      ∃ ps, parse_list d key keys l = .ok (ps, keys) ∧
        ∀ data, fill_list d ps data = .ok (strip_list l) := by
  induction l with
  | nil =>
    intro key keys
    refine ⟨[], by rw [parse_list], fun data => ?_⟩
    rw [fill_list, strip_list]
  | cons v vs ih =>
    intro key keys
    obtain ⟨q, hq, hfq⟩ := hl v (by simp) key keys
    obtain ⟨ps, hps, hfs⟩ := ih (fun w hw key2 keys2 => hl w (by simp [hw])
      key2 keys2) key keys
    refine ⟨q :: ps, ?_, fun data => ?_⟩
    · rw [parse_list, hq]
      simp [hps]
    · rw [fill_list, hfq data]
      simp [hfs data, strip_list]

/-- On schemas with no operator expressions, parsing is the identity (up to
the parsed representation), leaves the keys collector untouched, and the
subsequent fill returns the schema with sequences rebuilt as lists. -/
theorem no_op_parse_fill (d : Definitions) (v : Value) :
    no_op_schema d v = true →
      ∀ (key : Option String) (keys : List String),
        ∃ p : PValue, parse_value d key keys v = .ok (p, keys) ∧
          ∀ data, fill_value d p data = .ok (strip_seq v) := by
  induction v using Value.rec_on_nested with
  | hstr s =>
    intro h key keys
    rw [no_op_schema] at h
    refine ⟨.pstr s, ?_, fun data => ?_⟩
    · rw [parse_value, parse_string_inert d s.data h key keys]
      simp [arg_to_pvalue]
    · rw [fill_value]
      simp [strip_seq]
  | hint n =>
    intro _ key keys
    exact ⟨.pint n, by rw [parse_value], fun data => by
      rw [fill_value]
      simp [strip_seq]⟩
  | hbool b =>
    intro _ key keys
    exact ⟨.pbool b, by rw [parse_value], fun data => by
      rw [fill_value]
      simp [strip_seq]⟩
  | hnull =>
    intro _ key keys
    exact ⟨.pnull, by rw [parse_value], fun data => by
      rw [fill_value]
      simp [strip_seq]⟩
  | hexc =>
    intro _ key keys
    exact ⟨.pexc, by rw [parse_value], fun data => by
      rw [fill_value]
      simp [strip_seq]⟩
  | hmap l ihl =>
    intro h key keys
    rw [no_op_schema] at h
    have hpoint : ∀ p ∈ l, ∀ (key2 : Option String) (keys2 : List String),
        ∃ q : PValue, parse_value d key2 keys2 p.2 = .ok (q, keys2) ∧
          ∀ data, fill_value d q data = .ok (strip_seq p.2) := by
      intro p hp key2 keys2
      have hno : no_op_schema d p.2 = true := by
        clear ihl
        induction l with
        | nil => cases hp
        | cons e es ihes =>
          rcases e with ⟨ek, ev⟩
          rw [no_op_entries, Bool.and_eq_true] at h
          rcases List.mem_cons.mp hp with rfl | hmem
          · exact h.1
          · exact ihes h.2 hmem
      exact ihl p hp hno key2 keys2
    obtain ⟨ps, hps, hfs⟩ := parse_fill_entries_pointwise d l hpoint keys
    refine ⟨.pmap ps, ?_, fun data => ?_⟩
    · rw [parse_value, hps]
    · rw [fill_value, hfs data, strip_seq]
  | hlist l ihl =>
    intro h key keys
    rw [no_op_schema] at h
    have hpoint : ∀ v ∈ l, ∀ (key2 : Option String) (keys2 : List String),
        ∃ q : PValue, parse_value d key2 keys2 v = .ok (q, keys2) ∧
          ∀ data, fill_value d q data = .ok (strip_seq v) := by
      intro v hv key2 keys2
      have hno : no_op_schema d v = true := by
        clear ihl
        induction l with
        | nil => cases hv
        | cons e es ihes =>
          rw [no_op_list, Bool.and_eq_true] at h
          rcases List.mem_cons.mp hv with rfl | hmem
          · exact h.1
          · exact ihes h.2 hmem
      exact ihl v hv hno key2 keys2
    obtain ⟨ps, hps, hfs⟩ := parse_fill_list_pointwise d l hpoint key keys
    refine ⟨.ptup ps, ?_, fun data => ?_⟩
    · rw [parse_value, hps]
    · rw [fill_value, hfs data, strip_seq]
  | htup l ihl =>
    intro h key keys
    rw [no_op_schema] at h
    have hpoint : ∀ v ∈ l, ∀ (key2 : Option String) (keys2 : List String),
        ∃ q : PValue, parse_value d key2 keys2 v = .ok (q, keys2) ∧
          ∀ data, fill_value d q data = .ok (strip_seq v) := by
      intro v hv key2 keys2
      have hno : no_op_schema d v = true := by
        clear ihl
        induction l with
        | nil => cases hv
        | cons e es ihes =>
          rw [no_op_list, Bool.and_eq_true] at h
          rcases List.mem_cons.mp hv with rfl | hmem
          · exact h.1
          · exact ihes h.2 hmem
      exact ihl v hv hno key2 keys2
    obtain ⟨ps, hps, hfs⟩ := parse_fill_list_pointwise d l hpoint key keys
    refine ⟨.ptup ps, ?_, fun data => ?_⟩
    · rw [parse_value, hps]
    · rw [fill_value, hfs data, strip_seq]

/-- C4 counterexample: the schema string `` `a` `` contains no operator
expression (it is neither bracket-opened nor bracket-closed), yet evaluation
does not return it unchanged — the parser strips the escape quotes and the
result is the string `a`. -/
theorem no_op_eval_counterexample :
    template_eval default_defs (.vstr "`a`") [] =
      .ok (.ok (.vstr "a")) ∧ Value.vstr "a" ≠ Value.vstr "`a`" := by
  constructor
  · simp [template_eval, Template.make, Template.eval, Except.map,
      parse_value, parse_string, arg_to_pvalue, fill_value, default_defs,
      backquote, String.data]
  · simp

/-- C4 (amended): for every schema whose string leaves are inert — neither
starting with the open bracket nor ending with the close bracket (so no
operator expressions and no unbalanced-bracket errors) nor wholly wrapped in
the escape quote — and every data mapping, `Template(schema).eval(data)`
returns the schema unchanged up to sequence species: the same mapping
structure, elements and string leaves, with every sequence rebuilt as a
list. -/
theorem no_op_schema_eval_identity (schema : Value)
    (data : List (String × Value))
    (h : no_op_schema default_defs schema = true) :
    template_eval default_defs schema data =
      .ok (.ok (strip_seq schema)) := by
  obtain ⟨p, hp, hf⟩ := no_op_parse_fill default_defs schema h none []
  rw [template_eval, Template.make, hp]
  simp [Except.map, Template.eval, hf data]

theorem no_op_schema_eval_identity_witness :
    template_eval default_defs
        (.vmap [("a", .vlist [.vstr "x", .vint 1]), ("b", .vnull)]) [] =
      .ok (.ok (.vmap [("a", .vlist [.vstr "x", .vint 1]),
        ("b", .vnull)])) := by
  have h := no_op_schema_eval_identity
    (.vmap [("a", .vlist [.vstr "x", .vint 1]), ("b", .vnull)]) []
    (by simp [no_op_schema, no_op_entries, no_op_list, inert_string,
      default_defs, backquote, String.data])
  simpa [strip_seq, strip_list, strip_entries] using h

mutual

/-- The keys contributed by one parsed argument subtree, in collection order:
nested operator nodes contribute during their own construction (before the
enclosing node), and each Select node contributes its string-typed arguments
(`keys.extend(arg for arg in args if type(arg) is str)`). -/
def arg_keys : Arg → List String
  | .astr _ => []
  | .anode k args =>
    args_keys args ++ (if k = OpKind.s then args.filterMap arg_str else [])
termination_by a => sizeOf a

def args_keys : List Arg → List String
  | [] => []
  | a :: as2 => arg_keys a ++ args_keys as2
termination_by l => sizeOf l

end

mutual

/-- The keys contributed by a parsed schema: all string-typed arguments of
all Select nodes, in collection order. -/
def pvalue_keys : PValue → List String
  | .pstr _ => []
  | .pop k args =>
    args_keys args ++ (if k = OpKind.s then args.filterMap arg_str else [])
  | .pmap m => pentries_keys m
  | .ptup l => plist_keys l
  | _ => []
termination_by p => sizeOf p

def plist_keys : List PValue → List String
  | [] => []
  | p :: ps => pvalue_keys p ++ plist_keys ps
termination_by l => sizeOf l

def pentries_keys : List (String × PValue) → List String
  | [] => []
  | (_, p) :: es => pvalue_keys p ++ pentries_keys es
termination_by l => sizeOf l

end

/-- Stripping the operator-name argument never loses keys: the removed
argument is a string and strings contribute nothing through `arg_keys`. -/
theorem args_keys_strip (a0 : Arg) (restArgs : List Arg) :
    args_keys (a0 :: restArgs) =
      arg_keys a0 ++ args_keys restArgs := by
  rw [args_keys]

/-- Balanced-expression unfolding of `_parse_string`. -/
theorem parse_string_balanced (d : Definitions) (key : Option String)
    (keys : List String) (c0 : Char) (tail : List Char)
    (h1 : c0 = d.bracket_open)
    (h2 : (c0 :: tail).getLast (by simp) = d.bracket_close) :
    parse_string d key keys (c0 :: tail) =
      match parse_chunks d key keys (split_pieces d tail.dropLast) with
      | .error e => .error e
      | .ok (args, keys2) =>
        match args with
        | [] => .error .index_out_of_range
        | a0 :: restArgs =>
          let opname_args : String × List Arg :=
            match a0 with
            | .astr s0 =>
              if starts_with_char s0.data d.operator_sign then
                (String.mk (s0.data.drop 1), restArgs)
              else (d.default_operator, .astr s0 :: restArgs)
            | .anode k2 a2 => (d.default_operator, .anode k2 a2 :: restArgs)
          match operators_lookup opname_args.1 with
          | none => .error (.unknown_operator opname_args.1)
          | some kind =>
            .ok (.anode kind opname_args.2,
              if kind = OpKind.s then
                keys2 ++ opname_args.2.filterMap arg_str
              else keys2) := by
  rw [parse_string]
  rw [if_neg (fun hc => hc.1 h1), if_neg ?hor]
  case hor =>
    rintro (hx | hx)
    · exact hx h1
    · exact hx h2

/-- Unbalanced-expression unfolding of `_parse_string`. -/
theorem parse_string_unbalanced (d : Definitions) (key : Option String)
    (keys : List String) (c0 : Char) (tail : List Char)
    (hna : ¬(c0 ≠ d.bracket_open ∧
      (c0 :: tail).getLast (by simp) ≠ d.bracket_close))
    (hor : c0 ≠ d.bracket_open ∨
      (c0 :: tail).getLast (by simp) ≠ d.bracket_close) :
    parse_string d key keys (c0 :: tail) =
      .error (.unbalanced key (String.mk (c0 :: tail))) := by
  rw [parse_string]
  rw [if_neg hna, if_pos hor]

/-- Escape-quoted-string unfolding of `_parse_string`. -/
theorem parse_string_quoted (d : Definitions) (key : Option String)
    (keys : List String) (c0 : Char) (tail : List Char)
    (hcond : c0 ≠ d.bracket_open ∧
      (c0 :: tail).getLast (by simp) ≠ d.bracket_close)
    (hq : c0 = d.escape_quote ∧
      (c0 :: tail).getLast (by simp) = d.escape_quote) :
    parse_string d key keys (c0 :: tail) =
      .ok (.astr (String.mk tail.dropLast), keys) := by
  rw [parse_string]
  rw [if_pos hcond, if_pos hq]

/-- Plain-string unfolding of `_parse_string`. -/
theorem parse_string_plain (d : Definitions) (key : Option String)
    (keys : List String) (c0 : Char) (tail : List Char)
    (hcond : c0 ≠ d.bracket_open ∧
      (c0 :: tail).getLast (by simp) ≠ d.bracket_close)
    (hq : ¬(c0 = d.escape_quote ∧
      (c0 :: tail).getLast (by simp) = d.escape_quote)) :
    parse_string d key keys (c0 :: tail) =
      .ok (.astr (String.mk (c0 :: tail)), keys) := by
  rw [parse_string]
  rw [if_pos hcond, if_neg hq]

mutual

/-- The keys collector after a successful `_parse_string` equals the incoming
collector extended with exactly the parsed tree's Select string arguments. -/
theorem parse_string_keys (d : Definitions) (key : Option String)
    (keys : List String) (s : List Char) :
    ∀ (a : Arg) (keys2 : List String),
      parse_string d key keys s = .ok (a, keys2) →
        keys2 = keys ++ arg_keys a := by
  intro a keys2 h
  match s with
  | [] =>
    rw [parse_string] at h
    simp only [Except.ok.injEq, Prod.mk.injEq] at h
    rw [← h.1, ← h.2]
    simp [arg_keys]
  | c0 :: tail =>
    by_cases hna : c0 ≠ d.bracket_open ∧
        (c0 :: tail).getLast (by simp) ≠ d.bracket_close
    · by_cases hq : c0 = d.escape_quote ∧
          (c0 :: tail).getLast (by simp) = d.escape_quote
      · rw [parse_string_quoted d key keys c0 tail hna hq] at h
        simp only [Except.ok.injEq, Prod.mk.injEq] at h
        rw [← h.1, ← h.2]
        simp [arg_keys]
      · rw [parse_string_plain d key keys c0 tail hna hq] at h
        simp only [Except.ok.injEq, Prod.mk.injEq] at h
        rw [← h.1, ← h.2]
        simp [arg_keys]
    · by_cases hor : c0 ≠ d.bracket_open ∨
          (c0 :: tail).getLast (by simp) ≠ d.bracket_close
      · rw [parse_string_unbalanced d key keys c0 tail hna hor] at h
        cases h
      · have hb1 : c0 = d.bracket_open := by
          by_contra hx
          exact hor (Or.inl hx)
        have hb2 : (c0 :: tail).getLast (by simp) = d.bracket_close := by
          by_contra hx
          exact hor (Or.inr hx)
        rw [parse_string_balanced d key keys c0 tail hb1 hb2] at h
        cases hpc : parse_chunks d key keys (split_pieces d tail.dropLast)
          with
        | error e =>
          rw [hpc] at h
          cases h
        | ok pr =>
          obtain ⟨args, keys3⟩ := pr
          rw [hpc] at h
          have hk := parse_chunks_keys d key keys
            (split_pieces d tail.dropLast) args keys3 hpc
          cases args with
          | nil =>
            dsimp only [] at h
            cases h
          | cons a0 restArgs =>
            cases a0 with
            | astr s0 =>
              by_cases hsw : starts_with_char s0.data d.operator_sign = true
              · simp only [hsw, ite_true, if_true, List.drop_one] at h
                cases hol : operators_lookup (String.mk s0.data.tail) with
                | none => simp [hol] at h
                | some kind2 =>
                  simp only [hol, Except.ok.injEq, Prod.mk.injEq] at h
                  rw [← h.1, ← h.2, hk]
                  rw [arg_keys, args_keys_strip, arg_keys]
                  by_cases hkind : kind2 = OpKind.s <;>
                    simp [hkind, List.append_assoc]
              · have hsw2 : starts_with_char s0.data d.operator_sign =
                    false := by
                  revert hsw
                  cases starts_with_char s0.data d.operator_sign <;> simp
                dsimp only [] at h
                simp only [hsw2, Bool.false_eq_true, if_false, ite_false]
                  at h
                cases hol : operators_lookup d.default_operator with
                | none => simp [hol] at h
                | some kind2 =>
                  simp only [hol, Except.ok.injEq, Prod.mk.injEq] at h
                  rw [← h.1, ← h.2, hk]
                  rw [arg_keys]
                  by_cases hkind : kind2 = OpKind.s <;>
                    simp [hkind, List.append_assoc]
            | anode k2 a2 =>
              simp only [] at h
              cases hol : operators_lookup d.default_operator with
              | none => simp [hol] at h
              | some kind2 =>
                simp only [hol, Except.ok.injEq, Prod.mk.injEq] at h
                rw [← h.1, ← h.2, hk]
                rw [arg_keys]
                by_cases hkind : kind2 = OpKind.s <;>
                  simp [hkind, List.append_assoc]
termination_by 2 * s.length
decreasing_by
  apply chunks_measure_split_pieces_lt
  simp only [List.length_dropLast, List.length_cons]
  omega

/-- Companion statement for the argument-list walk. -/
theorem parse_chunks_keys (d : Definitions) (key : Option String)
    (keys : List String) (chunks : List (List Char)) :
    ∀ (as2 : List Arg) (keys2 : List String),
      parse_chunks d key keys chunks = .ok (as2, keys2) →
        keys2 = keys ++ args_keys as2 := by
  intro as2 keys2 h
  match chunks with
  | [] =>
    rw [parse_chunks] at h
    simp only [Except.ok.injEq, Prod.mk.injEq] at h
    rw [← h.1, ← h.2]
    simp [args_keys]
  | c :: cs =>
    rw [parse_chunks] at h
    cases hps : parse_string d key keys c with
    | error e =>
      rw [hps] at h
      cases h
    | ok pr =>
      obtain ⟨a, keys3⟩ := pr
      rw [hps] at h
      cases hpc : parse_chunks d key keys3 cs with
      | error e =>
        simp only [hpc] at h
        cases h
      | ok pr2 =>
        obtain ⟨args, keys4⟩ := pr2
        simp only [hpc, Except.ok.injEq, Prod.mk.injEq] at h
        have h1 := parse_string_keys d key keys c a keys3 hps
        have h2 := parse_chunks_keys d key keys3 cs args keys4 hpc
        rw [← h.1, ← h.2, h2, h1, args_keys, List.append_assoc]
termination_by chunks_measure chunks
decreasing_by
  all_goals
    simp only [chunks_measure, List.map_cons, List.sum_cons]
    omega

end

theorem pvalue_keys_arg (a : Arg) :
    pvalue_keys (arg_to_pvalue a) = arg_keys a := by
  cases a with
  | astr s => rw [arg_to_pvalue, pvalue_keys, arg_keys]
  | anode k args => rw [arg_to_pvalue, pvalue_keys, arg_keys]

mutual

/-- The keys collector after a successful `_parse_value` equals the incoming
collector extended with exactly the Select string arguments of the parsed
schema. -/
theorem parse_value_keys (d : Definitions) (key : Option String)
    (keys : List String) (v : Value) :
    ∀ (p : PValue) (keys2 : List String),
      parse_value d key keys v = .ok (p, keys2) →
        keys2 = keys ++ pvalue_keys p := by
  intro p keys2 h
  match v with
  | .vmap m =>
    rw [parse_value] at h
    cases hes : parse_entries d keys m with
    | error e =>
      rw [hes] at h
      cases h
    | ok pr =>
      obtain ⟨es, keys3⟩ := pr
      rw [hes] at h
      simp only [Except.ok.injEq, Prod.mk.injEq] at h
      rw [← h.1, ← h.2, parse_entries_keys d keys m es keys3 hes,
        pvalue_keys]
  | .vstr str =>
    rw [parse_value] at h
    cases hs : parse_string d key keys str.data with
    | error e =>
      rw [hs] at h
      cases h
    | ok pr =>
      obtain ⟨a, keys3⟩ := pr
      rw [hs] at h
      simp only [Except.ok.injEq, Prod.mk.injEq] at h
      rw [← h.1, ← h.2, parse_string_keys d key keys str.data a keys3 hs,
        pvalue_keys_arg]
  | .vlist l =>
    rw [parse_value] at h
    cases hl : parse_list d key keys l with
    | error e =>
      rw [hl] at h
      cases h
    | ok pr =>
      obtain ⟨ps, keys3⟩ := pr
      rw [hl] at h
      simp only [Except.ok.injEq, Prod.mk.injEq] at h
      rw [← h.1, ← h.2, parse_list_keys d key keys l ps keys3 hl,
        pvalue_keys]
  | .vtup l =>
    rw [parse_value] at h
    cases hl : parse_list d key keys l with
    | error e =>
      rw [hl] at h
      cases h
    | ok pr =>
      obtain ⟨ps, keys3⟩ := pr
      rw [hl] at h
      simp only [Except.ok.injEq, Prod.mk.injEq] at h
      rw [← h.1, ← h.2, parse_list_keys d key keys l ps keys3 hl,
        pvalue_keys]
  | .vint n =>
    rw [parse_value] at h
    simp only [Except.ok.injEq, Prod.mk.injEq] at h
    rw [← h.1, ← h.2]
    simp [pvalue_keys]
  | .vbool b =>
    rw [parse_value] at h
    simp only [Except.ok.injEq, Prod.mk.injEq] at h
    rw [← h.1, ← h.2]
    simp [pvalue_keys]
  | .vnull =>
    rw [parse_value] at h
    simp only [Except.ok.injEq, Prod.mk.injEq] at h
    rw [← h.1, ← h.2]
    simp [pvalue_keys]
  | .vexc =>
    rw [parse_value] at h
    simp only [Except.ok.injEq, Prod.mk.injEq] at h
    rw [← h.1, ← h.2]
    simp [pvalue_keys]
termination_by sizeOf v

/-- Companion statement for sequence schema nodes. -/
theorem parse_list_keys (d : Definitions) (key : Option String)
    (keys : List String) (l : List Value) :
    ∀ (ps : List PValue) (keys2 : List String),
      parse_list d key keys l = .ok (ps, keys2) →
        keys2 = keys ++ plist_keys ps := by
  intro ps keys2 h
  match l with
  | [] =>
    rw [parse_list] at h
    simp only [Except.ok.injEq, Prod.mk.injEq] at h
    rw [← h.1, ← h.2, plist_keys]
    simp
  | v :: vs =>
    rw [parse_list] at h
    cases hv : parse_value d key keys v with
    | error e =>
      rw [hv] at h
      cases h
    | ok pr =>
      obtain ⟨p, keys3⟩ := pr
      rw [hv] at h
      cases hvs : parse_list d key keys3 vs with
      | error e =>
        simp only [hvs] at h
        cases h
      | ok pr2 =>
        obtain ⟨ps2, keys4⟩ := pr2
        simp only [hvs, Except.ok.injEq, Prod.mk.injEq] at h
        rw [← h.1, ← h.2, parse_list_keys d key keys3 vs ps2 keys4 hvs,
          parse_value_keys d key keys v p keys3 hv, plist_keys,
          List.append_assoc]
termination_by sizeOf l

/-- Companion statement for mapping schema nodes. -/
theorem parse_entries_keys (d : Definitions) (keys : List String)
    (l : List (String × Value)) :
    ∀ (es : List (String × PValue)) (keys2 : List String),
      parse_entries d keys l = .ok (es, keys2) →
        keys2 = keys ++ pentries_keys es := by
  intro es keys2 h
  match l with
  | [] =>
    rw [parse_entries] at h
    simp only [Except.ok.injEq, Prod.mk.injEq] at h
    rw [← h.1, ← h.2, pentries_keys]
    simp
  | (k, v) :: es2 =>
    rw [parse_entries] at h
    cases hv : parse_value d (some k) keys v with
    | error e =>
      rw [hv] at h
      cases h
    | ok pr =>
      obtain ⟨p, keys3⟩ := pr
      rw [hv] at h
      cases hes : parse_entries d keys3 es2 with
      | error e =>
        simp only [hes] at h
        cases h
      | ok pr2 =>
        obtain ⟨es3, keys4⟩ := pr2
        simp only [hes, Except.ok.injEq, Prod.mk.injEq] at h
        rw [← h.1, ← h.2, parse_entries_keys d keys3 es2 es3 keys4 hes,
          parse_value_keys d (some k) keys v p keys3 hv, pentries_keys,
          List.append_assoc]
termination_by sizeOf l

end

/-- C5 counterexample: for the schema `[a.b:zzz]` the keys set is
`{"a.b", "zzz"}` — it contains the fallback argument `zzz` and the full
dotted path `a.b`, and does not contain the top-level field name `a` that
the claim demands. -/
theorem keys_counterexample :
    template_keys default_defs (.vstr "[a.b:zzz]") = .ok ["a.b", "zzz"] ∧
      "a" ∉ (["a.b", "zzz"] : List String) ∧
      "zzz" ∈ (["a.b", "zzz"] : List String) := by
  refine ⟨?_, by decide, by decide⟩
  simp [template_keys, Template.make, Except.map, parse_value, parse_string,
    parse_chunks, split_pieces, split_chunks, quote_step, counter_step,
    default_defs, starts_with_char, operators_lookup, arg_str, arg_to_pvalue,
    backquote, String.data]

/-- C5 (amended): after construction, the Template's keys collection is
exactly the string-typed arguments of the Select nodes across the whole
parsed schema, in collection order — including fallback arguments given as
literal strings and full dotted paths, and nothing else. -/
theorem template_keys_select_string_args (d : Definitions) (schema : Value)
    (t : Template) (h : Template.make d schema = .ok t) :
    t.keys = pvalue_keys t.pschema := by
  rw [Template.make] at h
  cases hp : parse_value d none [] schema with
  | error e =>
    rw [hp] at h
    cases h
  | ok pr =>
    rw [hp] at h
    rcases pr with ⟨p, ks⟩
    simp only [Except.ok.injEq] at h
    rw [← h]
    have hk := parse_value_keys d none [] schema p ks hp
    simpa using hk

theorem template_keys_select_string_args_witness :
    Template.make default_defs (.vstr "[x]") =
      .ok ⟨.vstr "[x]", default_defs, .pop .s [.astr "x"], ["x"]⟩ ∧
    (["x"] : List String) = pvalue_keys (.pop .s [.astr "x"]) := by
  have hmk : Template.make default_defs (.vstr "[x]") =
      .ok ⟨.vstr "[x]", default_defs, .pop .s [.astr "x"], ["x"]⟩ := by
    simp [Template.make, parse_value, parse_string, parse_chunks,
      split_pieces, split_chunks, quote_step, counter_step, default_defs,
      starts_with_char, operators_lookup, arg_str, arg_to_pvalue, backquote,
      String.data]
  refine ⟨hmk, ?_⟩
  have hkeys := template_keys_select_string_args default_defs (.vstr "[x]")
    _ hmk
  simpa using hkeys
